import Mathlib

/-!
# Bots-to-teams migration (`main.go`)

A shallow embedding of the one-shot migration script.  The four tables the
script touches are lists of rows, the transaction is an explicit working copy
of the database that only `tx.Commit` makes persistent, and everything the
script cannot control (which statement returns an error, which id the store
generates for a new team, what `crypto.RandString` returns, whether the row
stream of the candidate query breaks) is read from an environment `Env`.

The progress lines printed to standard output carry no data and are left out.
The result set of the candidate query is taken in table order; nothing below
depends on that order.  Columns the script scans into a Go `string` are
strings here, except `owner`, which the script itself sets to `NULL` and which
is therefore an `Option`: scanning a `NULL` owner is an error of `rows.Scan`.
-/

namespace TeamsMigrator

/-! ## Data model -/

/-- Go `type TeamPermission string`. -/
abbrev TeamPermission := String

def TeamPermissionUndefined : TeamPermission := ""
def TeamPermissionEditBotSettings : TeamPermission := "EDIT_BOT_SETTINGS"
def TeamPermissionAddNewBots : TeamPermission := "ADD_NEW_BOTS"
def TeamPermissionResubmitBots : TeamPermission := "RESUBMIT_BOTS"
def TeamPermissionCertifyBots : TeamPermission := "CERTIFY_BOTS"
def TeamPermissionResetBotTokens : TeamPermission := "RESET_BOT_TOKEN"
def TeamPermissionEditBotWebhooks : TeamPermission := "EDIT_BOT_WEBHOOKS"
def TeamPermissionTestBotWebhooks : TeamPermission := "TEST_BOT_WEBHOOKS"
def TeamPermissionSetBotVanity : TeamPermission := "SET_BOT_VANITY"
def TeamPermissionEditTeamNameAvatar : TeamPermission := "EDIT_TEAM_NAME_AVATAR"
def TeamPermissionAddTeamMembers : TeamPermission := "ADD_TEAM_MEMBERS"
def TeamPermissionRemoveTeamMembers : TeamPermission := "REMOVE_TEAM_MEMBERS"
def TeamPermissionEditTeamMemberPermissions : TeamPermission := "EDIT_TEAM_MEMBER_PERMISSIONS"
def TeamPermissionDeleteBots : TeamPermission := "DELETE_BOTS"
def TeamPermissionOwner : TeamPermission := "OWNER"

/-- Default permissions of the original owner (`var ownerPerms`). -/
def ownerPerms : List TeamPermission := [TeamPermissionOwner]

/-- Default permissions of an additional owner (`var addOwnerPerms`). -/
def addOwnerPerms : List TeamPermission :=
  [ TeamPermissionEditBotSettings,
    TeamPermissionAddNewBots,
    TeamPermissionResubmitBots,
    TeamPermissionCertifyBots,
    TeamPermissionResetBotTokens,
    TeamPermissionEditBotWebhooks,
    TeamPermissionTestBotWebhooks ]

/-- Extra link of a user (`type Link struct`). -/
structure Link where
  Name : String
  Value : String
deriving DecidableEq, Repr

/-- Value of a `pgtype.UUID` column; only equality of ids matters here. -/
abbrev UUID := Nat

/-- Row of `bots`, restricted to the columns the script reads or writes.
`owner` and `team_owner` are nullable: the script itself stores `NULL` in
`owner`. -/
structure Bot where
  bot_id : String
  queue_name : String
  queue_avatar : String
  owner : Option String
  team_owner : Option UUID
  additional_owners : List String
deriving DecidableEq, Repr

/-- Row of `teams`. -/
structure Team where
  id : UUID
  name : String
  avatar : String
deriving DecidableEq, Repr

/-- Row of `team_members`. -/
structure TeamMember where
  team_id : UUID
  user_id : String
  perms : List TeamPermission
deriving DecidableEq, Repr

/-- Row of `users`, restricted to the columns of the script's `INSERT`. -/
structure User where
  user_id : String
  api_token : String
  extra_links : List Link
  staff : Bool
  developer : Bool
  certified : Bool
deriving DecidableEq, Repr

/-- Contents of the four tables. -/
structure DB where
  bots : List Bot
  teams : List Team
  team_members : List TeamMember
  users : List User
deriving DecidableEq, Repr

/-! ## Environment and outcomes -/

/-- Everything outside the script's control during one run.  Statements
issued on the transaction are numbered `0, 1, 2, …` in the order the script
issues them. -/
structure Env where
  /-- Set when `pgxpool.New` returns an error. -/
  poolNewErr : Bool
  /-- The informational `SELECT COUNT(*)` on the pool returns an error. -/
  countErr : Bool
  /-- Set when `pool.Begin` returns an error. -/
  beginErr : Bool
  /-- Set when `pool.Query` for the candidate rows returns an error. -/
  queryErr : Bool
  /-- With `some k`, reading the candidate rows breaks after `k` rows, that is
  `rows.Next()` returns `false` with `rows.Err()` set; `none`: the stream is
  read to its end. -/
  rowsErrAfter : Option Nat
  /-- Statement number `k` of the transaction returns an error. -/
  txErr : Nat → Bool
  /-- Set when `tx.Commit` returns an error. -/
  commitErr : Bool
  /-- Id the store generates (`RETURNING id`) when statement `k` inserts a team. -/
  newTeamId : Nat → UUID
  /-- Result of `crypto.RandString n` when called ahead of statement `k`. -/
  RandString : Nat → Nat → String

/-- Reason for which the process terminates abnormally. -/
inductive Fatal where
  /-- Go `panic(err)` for an error returned by the database driver. -/
  | dbErr (site : String)
  /-- Go `panic` with a literal message. -/
  | panicMsg (msg : String)
deriving DecidableEq, Repr

/-- State of the open transaction: its view of the tables (own writes
included) and the number of statements issued on it so far. -/
structure Tx where
  db : DB
  n : Nat
deriving DecidableEq, Repr

deriving instance DecidableEq for Except

/-- What a run leaves behind: the persisted tables and how the process ended. -/
structure Outcome where
  persisted : DB
  result : Except Fatal Unit
deriving DecidableEq

/-! ## The script -/

/-- Go `strings.ReplaceAll(s, old, new)` for a one-character `old`. -/
def ReplaceAll (s : String) (old : Char) (new : String) : String :=
  String.mk (s.data.foldr (fun c acc => if c = old then new.data ++ acc else c :: acc) [])

/-- The validation of line 119: `len(strings.ReplaceAll(id, " ", "")) == 0`. -/
def invalidOwner (id : String) : Bool :=
  (ReplaceAll id ' ' "").length == 0

/-- Statement `SELECT COUNT(*) FROM users WHERE user_id = $1`. -/
def countUsers (users : List User) (id : String) : Nat :=
  (users.filter (fun u => u.user_id = id)).length

/-- Row written by the `INSERT INTO users` of lines 138-144. -/
def newUser (id token : String) : User :=
  { user_id := id, api_token := token, extra_links := [],
    staff := false, developer := false, certified := false }

/-- Statement `UPDATE bots SET owner = NULL, team_owner = $1, additional_owners = (empty)`
applied to one row. -/
def setTeam (teamId : UUID) (b : Bot) : Bot :=
  { b with owner := none, team_owner := some teamId, additional_owners := [] }

/-- The `UPDATE bots … WHERE bot_id = $2` of line 159 on the whole table. -/
def updateBots (teamId : UUID) (botId : String) (bots : List Bot) : List Bot :=
  bots.map (fun b => if b.bot_id = botId then setTeam teamId b else b)

/-- Body of the inner loop (lines 118-156) for one additional owner. -/
def addOwner (env : Env) (teamId : UUID) (tx : Tx) (additionalOwner : String) :
    Except Fatal Tx :=
  if invalidOwner additionalOwner then
    .error (.panicMsg "Invalid additional owner")
  else if env.txErr tx.n then
    .error (.dbErr "SELECT COUNT(*) FROM users")
  else
    let count := countUsers tx.db.users additionalOwner
    let tx1 : Tx := { tx with n := tx.n + 1 }
    if count = 0 then
      let apiToken := env.RandString 128 tx1.n
      if env.txErr tx1.n then
        .error (.dbErr "INSERT INTO users")
      else
        let tx2 : Tx :=
          { db := { tx1.db with users := tx1.db.users ++ [newUser additionalOwner apiToken] },
            n := tx1.n + 1 }
        if env.txErr tx2.n then
          .error (.dbErr "INSERT INTO team_members")
        else
          .ok { db := { tx2.db with team_members :=
                  tx2.db.team_members ++ [⟨teamId, additionalOwner, addOwnerPerms⟩] },
                n := tx2.n + 1 }
    else
      if env.txErr tx1.n then
        .error (.dbErr "INSERT INTO team_members")
      else
        .ok { db := { tx1.db with team_members :=
                tx1.db.team_members ++ [⟨teamId, additionalOwner, addOwnerPerms⟩] },
              n := tx1.n + 1 }

/-- The inner loop `for _, additionalOwner := range additionalOwners`. -/
def addOwners (env : Env) (teamId : UUID) : Tx → List String → Except Fatal Tx
  | tx, [] => .ok tx
  | tx, a :: rest =>
    match addOwner env teamId tx a with
    | .error e => .error e
    | .ok tx1 => addOwners env teamId tx1 rest

/-- Body of the outer loop (lines 89-163) for one candidate row. -/
def migrateRow (env : Env) (tx : Tx) (row : Bot) : Except Fatal Tx :=
  -- rows.Scan: `owner` is scanned into a Go `string`, which rejects NULL
  match row.owner with
  | none => .error (.dbErr "rows.Scan")
  | some owner =>
    if env.txErr tx.n then
      .error (.dbErr "INSERT INTO teams")
    else
      let teamId := env.newTeamId tx.n
      let tx1 : Tx :=
        { db := { tx.db with teams := tx.db.teams ++ [⟨teamId, row.queue_name, row.queue_avatar⟩] },
          n := tx.n + 1 }
      if env.txErr tx1.n then
        .error (.dbErr "INSERT INTO team_members")
      else
        let tx2 : Tx :=
          { db := { tx1.db with team_members :=
              tx1.db.team_members ++ [⟨teamId, owner, ownerPerms⟩] },
            n := tx1.n + 1 }
        match addOwners env teamId tx2 row.additional_owners with
        | .error e => .error e
        | .ok tx3 =>
          if env.txErr tx3.n then
            .error (.dbErr "UPDATE bots")
          else
            .ok { db := { tx3.db with bots := updateBots teamId row.bot_id tx3.db.bots },
                  n := tx3.n + 1 }

/-- The outer loop `for rows.Next()` over the rows the stream delivers. -/
def migrateRows (env : Env) : Tx → List Bot → Except Fatal Tx
  | tx, [] => .ok tx
  | tx, row :: rest =>
    match migrateRow env tx row with
    | .error e => .error e
    | .ok tx1 => migrateRows env tx1 rest

/-- Result set of `SELECT … FROM bots WHERE cardinality(additional_owners) > 0`. -/
def candidates (db : DB) : List Bot :=
  db.bots.filter (fun b => 0 < b.additional_owners.length)

/-- Rows for which `rows.Next()` returns `true`: all candidates, or the first
`k` of them when the stream breaks after `k` rows.  The script never looks at
`rows.Err()`, so a broken stream ends the loop like an exhausted one. -/
def rowsRead (env : Env) (db : DB) : List Bot :=
  match env.rowsErrAfter with
  | none => candidates db
  | some k => (candidates db).take k

/-- The whole of `main`.  The candidate rows are read through the pool, hence
from the persisted tables; every write goes through the transaction; the
deferred `tx.Rollback` discards the working copy on every panic. -/
def main (env : Env) (db : DB) : Outcome :=
  if env.poolNewErr then ⟨db, .error (.dbErr "pgxpool.New")⟩
  else if env.countErr then ⟨db, .error (.dbErr "SELECT COUNT(*) FROM bots")⟩
  else if env.beginErr then ⟨db, .error (.dbErr "pool.Begin")⟩
  else if env.queryErr then ⟨db, .error (.dbErr "pool.Query")⟩
  else
    match migrateRows env ⟨db, 0⟩ (rowsRead env db) with
    | .error e => ⟨db, .error e⟩
    | .ok tx =>
      if env.commitErr then ⟨db, .error (.dbErr "tx.Commit")⟩
      else ⟨tx.db, .ok ()⟩

/-! ## Reference description of a committed run -/

/-- Team rows created for the rows `rs` when the store hands out the ids `ts`. -/
def teamRows : List Bot → List UUID → List Team
  | r :: rs, t :: ts => ⟨t, r.queue_name, r.queue_avatar⟩ :: teamRows rs ts
  | _, _ => []

/-- Team-member rows of one migrated row: the owner first, then the
additional owners in list order. -/
def memberRows (t : UUID) (r : Bot) : List TeamMember :=
  (match r.owner with
    | some o => [⟨t, o, ownerPerms⟩]
    | none => []) ++ r.additional_owners.map (fun a => ⟨t, a, addOwnerPerms⟩)

/-- Team-member rows created for the rows `rs` with team ids `ts`. -/
def allMemberRows : List Bot → List UUID → List TeamMember
  | r :: rs, t :: ts => memberRows t r ++ allMemberRows rs ts
  | _, _ => []

/-- The `bots` table after the updates for the rows `rs` with team ids `ts`. -/
def assign : List Bot → List UUID → List Bot → List Bot
  | r :: rs, t :: ts, bots => assign rs ts (updateBots t r.bot_id bots)
  | _, _, bots => bots

/-- One row after the updates for the rows `rs` with team ids `ts`. -/
def assignRow : List Bot → List UUID → Bot → Bot
  | r :: rs, t :: ts, b => assignRow rs ts (if b.bot_id = r.bot_id then setTeam t b else b)
  | _, _, b => b

/-- The table `users` grew from `U0` to `U` by provisioning: rows were only
appended, each appended row is a fresh-user row for an id that had no row in
`U0`, and no id was appended twice. -/
def Provisioned (env : Env) (U0 U : List User) : Prop :=
  ∃ added, U = U0 ++ added ∧ (added.map User.user_id).Nodup ∧
    ∀ u ∈ added, countUsers U0 u.user_id = 0 ∧
      ∃ k, u = newUser u.user_id (env.RandString 128 k)

/-- No injected error at all: every driver call succeeds and the candidate
stream is read to its end. -/
def Env.faultFree (env : Env) : Prop :=
  env.poolNewErr = false ∧ env.countErr = false ∧ env.beginErr = false ∧
  env.queryErr = false ∧ env.rowsErrAfter = none ∧ env.commitErr = false ∧
  ∀ k, env.txErr k = false

/-- A run without any failure: the candidate stream was read to its end
without an error and the transaction committed. -/
def Succeeds (env : Env) (db : DB) : Prop :=
  env.rowsErrAfter = none ∧ (main env db).result = .ok ()

instance (env : Env) (db : DB) : Decidable (Succeeds env db) := by
  unfold Succeeds
  infer_instance

/-! ## Concrete runs -/

/-- An environment without any error: ids are handed out from 1000 on and
the token generator returns `n` letters picked by the call number. -/
def demoEnv : Env :=
  { poolNewErr := false, countErr := false, beginErr := false, queryErr := false,
    rowsErrAfter := none, txErr := fun _ => false, commitErr := false,
    newTeamId := fun k => 1000 + k,
    RandString := fun n k => String.mk (List.replicate n (Char.ofNat (97 + k % 26))) }

/-- The end-to-end example: bot `B1` owned by `U1` with additional owners
`U2` (already a user) and `U3` (not yet a user), next to a bot without
additional owners and one older team. -/
def demoDB : DB :=
  { bots := [ ⟨"B1", "MyBot", "http://x/a.png", some "U1", none, ["U2", "U3"]⟩,
              ⟨"B2", "Solo", "http://x/b.png", some "U4", none, []⟩ ],
    teams := [ ⟨1, "Old", "http://x/o.png"⟩ ],
    team_members := [ ⟨1, "U9", ownerPerms⟩ ],
    users := [ ⟨"U2", "tok2", [⟨"site", "http://x"⟩], true, false, true⟩ ] }

/-- The candidate bot of `demoDB`. -/
def demoBot : Bot := ⟨"B1", "MyBot", "http://x/a.png", some "U1", none, ["U2", "U3"]⟩

/-- The bot of `demoDB` that has no additional owners. -/
def soloBot : Bot := ⟨"B2", "Solo", "http://x/b.png", some "U4", none, []⟩

/-- Two candidate bots. -/
def twoBotsDB : DB :=
  { bots := [ ⟨"B1", "First", "a.png", some "U1", none, ["U2"]⟩,
              ⟨"B2", "Second", "b.png", some "U3", none, ["U4"]⟩ ],
    teams := [], team_members := [], users := [] }

/-- The second candidate bot of `twoBotsDB`. -/
def secondBot : Bot := ⟨"B2", "Second", "b.png", some "U3", none, ["U4"]⟩

/-- The environment `demoEnv`, except that reading the candidate rows breaks
after the first row. -/
def brokenStreamEnv : Env := { demoEnv with rowsErrAfter := some 1 }

/-- A candidate bot whose second additional owner consists of two spaces. -/
def blankDB : DB :=
  { bots := [ ⟨"B1", "MyBot", "a.png", some "U1", none, ["U2", "  "]⟩ ],
    teams := [], team_members := [], users := [] }

/-- A candidate bot whose only additional owner is a tab character. -/
def tabDB : DB :=
  { bots := [ ⟨"B1", "MyBot", "a.png", some "U1", none, ["\t"]⟩ ],
    teams := [], team_members := [], users := [] }

/-- Blank after whitespace removal, in the words of the specification: every
character of the id is a whitespace character (space, tab, newline, return). -/
def blankAfterWhitespaceRemoval (id : String) : Bool :=
  (id.data.filter (fun c => !c.isWhitespace)).isEmpty

/-! ## Users table -/

theorem countUsers_eq_zero {U : List User} {a : String} :
    countUsers U a = 0 ↔ ∀ u ∈ U, u.user_id ≠ a := by
  unfold countUsers
  rw [List.length_eq_zero, List.filter_eq_nil_iff]
  simp

theorem countUsers_append (U V : List User) (a : String) :
    countUsers (U ++ V) a = countUsers U a + countUsers V a := by
  simp [countUsers, List.filter_append]

theorem Provisioned.refl (env : Env) (U : List User) : Provisioned env U U :=
  ⟨[], by simp, by simp, by simp⟩

theorem Provisioned.step {env : Env} {U0 U : List User} (h : Provisioned env U0 U)
    {a : String} (ha : countUsers U a = 0) (k : Nat) :
    Provisioned env U0 (U ++ [newUser a (env.RandString 128 k)]) := by
  obtain ⟨added, rfl, hnd, hall⟩ := h
  rw [countUsers_append] at ha
  have ha0 : countUsers U0 a = 0 := by omega
  have ha1 : countUsers added a = 0 := by omega
  refine ⟨added ++ [newUser a (env.RandString 128 k)], by simp, ?_, ?_⟩
  · rw [List.map_append, List.nodup_append]
    refine ⟨hnd, by simp, ?_⟩
    intro x hx hx2
    simp only [List.map_cons, List.map_nil, List.mem_singleton] at hx2
    obtain ⟨u, hu, rfl⟩ := List.mem_map.1 hx
    exact (countUsers_eq_zero.1 ha1) u hu (by simpa [newUser] using hx2)
  · intro u hu
    rcases List.mem_append.1 hu with hu | hu
    · exact hall u hu
    · simp only [List.mem_singleton] at hu
      subst hu
      exact ⟨by simpa [newUser] using ha0, k, by simp [newUser]⟩

theorem Provisioned.trans {env : Env} {U0 U1 U2 : List User}
    (h1 : Provisioned env U0 U1) (h2 : Provisioned env U1 U2) : Provisioned env U0 U2 := by
  obtain ⟨a1, rfl, hnd1, hall1⟩ := h1
  obtain ⟨a2, rfl, hnd2, hall2⟩ := h2
  refine ⟨a1 ++ a2, by simp, ?_, ?_⟩
  · rw [List.map_append, List.nodup_append]
    refine ⟨hnd1, hnd2, ?_⟩
    intro x hx hx2
    obtain ⟨u, hu, rfl⟩ := List.mem_map.1 hx
    obtain ⟨v, hv, hvu⟩ := List.mem_map.1 hx2
    have := (hall2 v hv).1
    rw [countUsers_append] at this
    exact (countUsers_eq_zero.1 (by omega : countUsers a1 v.user_id = 0)) u hu hvu.symm
  · intro u hu
    rcases List.mem_append.1 hu with hu | hu
    · exact hall1 u hu
    · obtain ⟨h0, hk⟩ := hall2 u hu
      rw [countUsers_append] at h0
      exact ⟨by omega, hk⟩

theorem Provisioned.count_ne_zero {env : Env} {U0 U : List User} (h : Provisioned env U0 U)
    {a : String} (ha : countUsers U0 a ≠ 0) : countUsers U a ≠ 0 := by
  obtain ⟨added, rfl, -, -⟩ := h
  rw [countUsers_append]
  omega

/-! ## Effect of the loops when they run to their end -/

theorem addOwner_ok {env : Env} {t : UUID} {tx tx1 : Tx} {a : String}
    (h : addOwner env t tx a = .ok tx1) :
    invalidOwner a = false ∧ tx.n < tx1.n ∧ tx1.db.bots = tx.db.bots ∧
    tx1.db.teams = tx.db.teams ∧
    tx1.db.team_members = tx.db.team_members ++ [⟨t, a, addOwnerPerms⟩] ∧
    Provisioned env tx.db.users tx1.db.users ∧ countUsers tx1.db.users a ≠ 0 := by
  unfold addOwner at h
  split at h
  · cases h
  rename_i hv
  split at h
  · cases h
  simp only at h
  split at h
  · rename_i hc
    split at h
    · cases h
    split at h
    · cases h
    cases h
    refine ⟨by simpa using hv, by simp; omega, rfl, rfl, rfl, ?_, ?_⟩
    · exact (Provisioned.refl env _).step hc _
    · simp [countUsers_append, countUsers, newUser]
  · rename_i hc
    split at h
    · cases h
    cases h
    exact ⟨by simpa using hv, by simp only; omega, rfl, rfl, rfl, Provisioned.refl env _, hc⟩

theorem addOwners_ok {env : Env} {t : UUID} {as : List String} {tx tx1 : Tx}
    (h : addOwners env t tx as = .ok tx1) :
    tx.n ≤ tx1.n ∧ tx1.db.bots = tx.db.bots ∧ tx1.db.teams = tx.db.teams ∧
    tx1.db.team_members
      = tx.db.team_members ++ as.map (fun a => ⟨t, a, addOwnerPerms⟩) ∧
    Provisioned env tx.db.users tx1.db.users ∧
    ∀ a ∈ as, invalidOwner a = false ∧ countUsers tx1.db.users a ≠ 0 := by
  induction as generalizing tx with
  | nil =>
    simp only [addOwners, Except.ok.injEq] at h
    subst h
    exact ⟨le_refl _, rfl, rfl, by simp, Provisioned.refl env _, by simp⟩
  | cons a rest ih =>
    simp only [addOwners] at h
    split at h
    · cases h
    rename_i tx2 h2
    obtain ⟨hv, hn, hb, ht, hm, hu, hc⟩ := addOwner_ok h2
    obtain ⟨hn1, hb1, ht1, hm1, hu1, hall⟩ := ih h
    refine ⟨by omega, by rw [hb1, hb], by rw [ht1, ht], by rw [hm1, hm]; simp,
      hu.trans hu1, ?_⟩
    intro x hx
    rcases List.mem_cons.1 hx with rfl | hx
    · exact ⟨hv, hu1.count_ne_zero hc⟩
    · exact hall x hx

theorem migrateRow_ok {env : Env} {tx tx1 : Tx} {r : Bot}
    (h : migrateRow env tx r = .ok tx1) :
    tx.n < tx1.n ∧ r.owner ≠ none ∧
    tx1.db.teams = tx.db.teams ++ [⟨env.newTeamId tx.n, r.queue_name, r.queue_avatar⟩] ∧
    tx1.db.team_members = tx.db.team_members ++ memberRows (env.newTeamId tx.n) r ∧
    tx1.db.bots = updateBots (env.newTeamId tx.n) r.bot_id tx.db.bots ∧
    Provisioned env tx.db.users tx1.db.users ∧
    ∀ a ∈ r.additional_owners, invalidOwner a = false ∧ countUsers tx1.db.users a ≠ 0 := by
  unfold migrateRow at h
  split at h
  · cases h
  rename_i o ho
  split at h
  · cases h
  simp only at h
  split at h
  · cases h
  split at h
  · cases h
  rename_i tx3 h3
  split at h
  · cases h
  cases h
  obtain ⟨hn, hb, ht, hm, hu, hall⟩ := addOwners_ok h3
  simp only at hn hb ht hm hu
  refine ⟨by simp only; omega, by simp [ho], by simp only [ht], ?_, by simp only [hb], hu, hall⟩
  simp only [hm, memberRows, ho, List.append_assoc]

/-- When the outer loop runs to its end over the rows `rs`, the transaction
holds exactly the reference description of the migration of `rs`, for team
ids the store generated at increasing statement numbers `ks`. -/
theorem migrateRows_ok {env : Env} {rs : List Bot} {tx tx1 : Tx}
    (h : migrateRows env tx rs = .ok tx1) :
    ∃ ks : List Nat, ks.length = rs.length ∧ (∀ k ∈ ks, tx.n ≤ k) ∧
      ks.Pairwise (· < ·) ∧ tx.n ≤ tx1.n ∧
      tx1.db.teams = tx.db.teams ++ teamRows rs (ks.map env.newTeamId) ∧
      tx1.db.team_members
        = tx.db.team_members ++ allMemberRows rs (ks.map env.newTeamId) ∧
      tx1.db.bots = assign rs (ks.map env.newTeamId) tx.db.bots ∧
      Provisioned env tx.db.users tx1.db.users ∧
      ∀ r ∈ rs, r.owner ≠ none ∧
        ∀ a ∈ r.additional_owners, invalidOwner a = false ∧ countUsers tx1.db.users a ≠ 0 := by
  induction rs generalizing tx with
  | nil =>
    simp only [migrateRows, Except.ok.injEq] at h
    subst h
    exact ⟨[], rfl, by simp, List.Pairwise.nil, le_refl _, by simp [teamRows],
      by simp [allMemberRows], by simp [assign], Provisioned.refl env _, by simp⟩
  | cons r rest ih =>
    simp only [migrateRows] at h
    split at h
    · cases h
    rename_i tx2 h2
    obtain ⟨hn, ho, ht, hm, hb, hu, hall⟩ := migrateRow_ok h2
    obtain ⟨ks, hlen, hge, hpw, hn1, ht1, hm1, hb1, hu1, hall1⟩ := ih h
    refine ⟨tx.n :: ks, by simp [hlen], ?_, ?_, by omega, ?_, ?_, ?_, hu.trans hu1, ?_⟩
    · intro k hk
      rcases List.mem_cons.1 hk with rfl | hk
      · exact le_refl _
      · have := hge k hk
        omega
    · refine List.Pairwise.cons ?_ hpw
      intro k hk
      have := hge k hk
      omega
    · simp [teamRows, ht1, ht]
    · simp [allMemberRows, hm1, hm]
    · simp [assign, hb1, hb]
    · intro x hx
      rcases List.mem_cons.1 hx with rfl | hx
      · refine ⟨ho, fun a ha => ⟨(hall a ha).1, hu1.count_ne_zero (hall a ha).2⟩⟩
      · exact hall1 x hx

/-! ## Shape of `main` -/

/-- The two ways a run can end: in a panic, with the persisted tables as they
were, or with a commit of what the loop wrote for the rows it read. -/
theorem main_persisted (env : Env) (db : DB) :
    ((main env db).result ≠ .ok () ∧ (main env db).persisted = db) ∨
    ((main env db).result = .ok () ∧
      ∃ tx, migrateRows env ⟨db, 0⟩ (rowsRead env db) = .ok tx ∧
        (main env db).persisted = tx.db) := by
  unfold main
  split
  · left; simp
  split
  · left; simp
  split
  · left; simp
  split
  · left; simp
  split
  · left; simp
  rename_i tx htx
  split
  · left; simp
  · right; exact ⟨rfl, tx, htx, rfl⟩

theorem main_ok {env : Env} {db : DB} (h : (main env db).result = .ok ()) :
    ∃ tx, migrateRows env ⟨db, 0⟩ (rowsRead env db) = .ok tx ∧
      (main env db).persisted = tx.db := by
  rcases main_persisted env db with ⟨hne, -⟩ | ⟨-, hx⟩
  · exact absurd h hne
  · exact hx

/-- Every failure the script detects (an error returned by a driver call, a
failed scan, the validation panic) leaves the persisted tables untouched. -/
theorem main_error {env : Env} {db : DB} (h : (main env db).result ≠ .ok ()) :
    (main env db).persisted = db := by
  rcases main_persisted env db with ⟨-, hp⟩ | ⟨hok, -⟩
  · exact hp
  · exact absurd hok h

/-! ## Facts about the reference description -/

theorem teamRows_length {rs : List Bot} {ts : List UUID} (h : ts.length = rs.length) :
    (teamRows rs ts).length = rs.length := by
  induction rs generalizing ts with
  | nil => cases ts <;> simp [teamRows]
  | cons r rest ih =>
    cases ts with
    | nil => simp at h
    | cons t ts => simp [teamRows, ih (by simpa using h)]

theorem mem_teamRows_of_mem_zip {rs : List Bot} {ts : List UUID} {r : Bot} {t : UUID}
    (h : (r, t) ∈ rs.zip ts) : (⟨t, r.queue_name, r.queue_avatar⟩ : Team) ∈ teamRows rs ts := by
  induction rs generalizing ts with
  | nil => simp at h
  | cons r0 rest ih =>
    cases ts with
    | nil => simp at h
    | cons t0 ts =>
      simp only [List.zip_cons_cons, List.mem_cons, Prod.mk.injEq] at h
      rcases h with ⟨rfl, rfl⟩ | h
      · simp [teamRows]
      · simp [teamRows, ih h]

theorem setTeam_bot_id (t : UUID) (b : Bot) : (setTeam t b).bot_id = b.bot_id := rfl

theorem setTeam_setTeam (t u : UUID) (b : Bot) : setTeam t (setTeam u b) = setTeam t b := rfl

theorem assign_eq_map (rs : List Bot) (ts : List UUID) (bots : List Bot) :
    assign rs ts bots = bots.map (assignRow rs ts) := by
  induction rs generalizing ts bots with
  | nil => cases ts <;> simp [assign, assignRow]
  | cons r rest ih =>
    cases ts with
    | nil => simp [assign, assignRow]
    | cons t ts =>
      simp only [assign, ih, updateBots, List.map_map]
      rfl

theorem assignRow_bot_id (rs : List Bot) (ts : List UUID) (b : Bot) :
    (assignRow rs ts b).bot_id = b.bot_id := by
  induction rs generalizing ts b with
  | nil => cases ts <;> simp [assignRow]
  | cons r rest ih =>
    cases ts with
    | nil => simp [assignRow]
    | cons t ts =>
      simp only [assignRow, ih]
      split <;> simp [setTeam_bot_id]

theorem assignRow_of_not_mem {rs : List Bot} {ts : List UUID} {b : Bot}
    (h : b.bot_id ∉ rs.map Bot.bot_id) : assignRow rs ts b = b := by
  induction rs generalizing ts b with
  | nil => cases ts <;> simp [assignRow]
  | cons r rest ih =>
    cases ts with
    | nil => simp [assignRow]
    | cons t ts =>
      simp only [List.map_cons, List.mem_cons, not_or] at h
      simp only [assignRow, if_neg h.1]
      exact ih h.2

theorem assignRow_of_mem {rs : List Bot} {ts : List UUID} (hlen : ts.length = rs.length)
    {b : Bot} (h : b.bot_id ∈ rs.map Bot.bot_id) :
    ∃ r t, (r, t) ∈ rs.zip ts ∧ r.bot_id = b.bot_id ∧ assignRow rs ts b = setTeam t b := by
  induction rs generalizing ts b with
  | nil => simp at h
  | cons r0 rest ih =>
    cases ts with
    | nil => simp at hlen
    | cons t0 ts =>
      have hlen1 : ts.length = rest.length := by simpa using hlen
      simp only [assignRow]
      by_cases hrest : b.bot_id ∈ rest.map Bot.bot_id
      · by_cases h0 : b.bot_id = r0.bot_id
        · rw [if_pos h0]
          obtain ⟨r, t, hz, hid, he⟩ := ih hlen1 (b := setTeam t0 b) hrest
          exact ⟨r, t, by simp [hz], hid, by rw [he, setTeam_setTeam]⟩
        · rw [if_neg h0]
          obtain ⟨r, t, hz, hid, he⟩ := ih hlen1 hrest
          exact ⟨r, t, by simp [hz], hid, he⟩
      · have h0 : b.bot_id = r0.bot_id := by
          simp only [List.map_cons, List.mem_cons] at h
          rcases h with h | h
          · exact h
          · exact absurd h hrest
        rw [if_pos h0]
        exact ⟨r0, t0, by simp, h0.symm, assignRow_of_not_mem (by simpa using hrest)⟩

theorem eq_of_bot_id_eq {bots : List Bot} (hkey : (bots.map Bot.bot_id).Nodup)
    {b c : Bot} (hb : b ∈ bots) (hc : c ∈ bots) (h : b.bot_id = c.bot_id) : b = c :=
  List.inj_on_of_nodup_map hkey hb hc h

theorem mem_candidates {db : DB} {b : Bot} :
    b ∈ candidates db ↔ b ∈ db.bots ∧ b.additional_owners ≠ [] := by
  simp [candidates, List.mem_filter, List.length_pos]

theorem rowsRead_sublist (env : Env) (db : DB) : (rowsRead env db).Sublist (candidates db) := by
  unfold rowsRead
  split
  · exact List.Sublist.refl _
  · exact List.take_sublist _ _

theorem mem_rowsRead {env : Env} {db : DB} {b : Bot} (h : b ∈ rowsRead env db) :
    b ∈ db.bots ∧ b.additional_owners ≠ [] :=
  mem_candidates.1 ((rowsRead_sublist env db).subset h)

theorem rowsRead_of_complete {env : Env} (h : env.rowsErrAfter = none) (db : DB) :
    rowsRead env db = candidates db := by
  simp [rowsRead, h]

/-- With `bot_id` a key, the row of a bot that was read ends up as that bot
with the id of the team created for it. -/
theorem assignRow_of_read {bots rs : List Bot} {ts : List UUID}
    (hkey : (bots.map Bot.bot_id).Nodup) (hsub : ∀ r ∈ rs, r ∈ bots)
    (hlen : ts.length = rs.length) {b : Bot} (hb : b ∈ rs) :
    ∃ t, (b, t) ∈ rs.zip ts ∧ assignRow rs ts b = setTeam t b := by
  obtain ⟨r, t, hz, hid, he⟩ := assignRow_of_mem hlen (List.mem_map_of_mem Bot.bot_id hb)
  have hr : r ∈ rs := (List.of_mem_zip hz).1
  have : r = b := eq_of_bot_id_eq hkey (hsub r hr) (hsub b hb) hid
  subst this
  exact ⟨t, hz, he⟩

/-- With `bot_id` a key, a bot that was not read keeps its row. -/
theorem assignRow_of_not_read {bots rs : List Bot} {ts : List UUID}
    (hkey : (bots.map Bot.bot_id).Nodup) (hsub : ∀ r ∈ rs, r ∈ bots)
    {b : Bot} (hb : b ∈ bots) (hnot : b ∉ rs) : assignRow rs ts b = b := by
  apply assignRow_of_not_mem
  intro hmem
  obtain ⟨r, hr, hid⟩ := List.mem_map.1 hmem
  have : r = b := eq_of_bot_id_eq hkey (hsub r hr) hb hid
  subst this
  exact hnot hr


/-! ## Facts about the team-member rows -/

theorem memberRows_team_id {t : UUID} {r : Bot} {m : TeamMember} (h : m ∈ memberRows t r) :
    m.team_id = t := by
  unfold memberRows at h
  rcases List.mem_append.1 h with h | h
  · split at h
    · simp only [List.mem_singleton] at h
      rw [h]
    · simp at h
  · obtain ⟨a, -, rfl⟩ := List.mem_map.1 h
    rfl

theorem allMemberRows_team_id {rs : List Bot} {ts : List UUID} {m : TeamMember}
    (h : m ∈ allMemberRows rs ts) : m.team_id ∈ ts := by
  induction rs generalizing ts with
  | nil => cases ts <;> simp [allMemberRows] at h
  | cons r rest ih =>
    cases ts with
    | nil => simp [allMemberRows] at h
    | cons t ts =>
      simp only [allMemberRows, List.mem_append] at h
      rcases h with h | h
      · simp [memberRows_team_id h]
      · simp [ih h]

theorem allMemberRows_filter {rs : List Bot} {ts : List UUID} (hnd : ts.Nodup)
    {r : Bot} {t : UUID} (h : (r, t) ∈ rs.zip ts) :
    (allMemberRows rs ts).filter (fun m => m.team_id = t) = memberRows t r := by
  induction rs generalizing ts with
  | nil => simp at h
  | cons r0 rest ih =>
    cases ts with
    | nil => simp at h
    | cons t0 ts =>
      obtain ⟨ht0, hnd1⟩ := List.nodup_cons.1 hnd
      simp only [List.zip_cons_cons, List.mem_cons, Prod.mk.injEq] at h
      simp only [allMemberRows, List.filter_append]
      rcases h with ⟨rfl, rfl⟩ | h
      · have h1 : (memberRows t r).filter (fun m => m.team_id = t) = memberRows t r := by
          rw [List.filter_eq_self]
          intro m hm
          simp [memberRows_team_id hm]
        have h2 : (allMemberRows rest ts).filter (fun m => m.team_id = t) = [] := by
          rw [List.filter_eq_nil_iff]
          intro m hm
          have := allMemberRows_team_id hm
          simp only [decide_eq_true_eq]
          intro hmt
          exact ht0 (hmt ▸ this)
        rw [h1, h2, List.append_nil]
      · have hts : t ∈ ts := (List.of_mem_zip h).2
        have hne : t0 ≠ t := fun e => ht0 (e ▸ hts)
        have h1 : (memberRows t0 r0).filter (fun m => m.team_id = t) = [] := by
          rw [List.filter_eq_nil_iff]
          intro m hm
          simp only [decide_eq_true_eq]
          rw [memberRows_team_id hm]
          exact hne
        rw [h1, List.nil_append]
        exact ih hnd1 h

theorem allMemberRows_perms {rs : List Bot} {ts : List UUID} {m : TeamMember}
    (h : m ∈ allMemberRows rs ts) :
    m.perms = ownerPerms ∨ ∃ r ∈ rs, m.user_id ∈ r.additional_owners := by
  induction rs generalizing ts with
  | nil => cases ts <;> simp [allMemberRows] at h
  | cons r rest ih =>
    cases ts with
    | nil => simp [allMemberRows] at h
    | cons t ts =>
      simp only [allMemberRows, List.mem_append] at h
      rcases h with h | h
      · unfold memberRows at h
        rcases List.mem_append.1 h with h | h
        · split at h
          · simp only [List.mem_singleton] at h
            left
            rw [h]
          · simp at h
        · obtain ⟨a, ha, rfl⟩ := List.mem_map.1 h
          exact Or.inr ⟨r, by simp, ha⟩
      · rcases ih h with h | ⟨r1, hr1, h⟩
        · exact Or.inl h
        · exact Or.inr ⟨r1, by simp [hr1], h⟩

theorem newTeamIds_nodup {env : Env} (hids : Function.Injective env.newTeamId)
    {ks : List Nat} (hpw : ks.Pairwise (· < ·)) : (ks.map env.newTeamId).Nodup :=
  List.Nodup.map hids (hpw.imp (fun h => Nat.ne_of_lt h))

theorem filter_user_id_of_nodup {l : List User} (hnd : (l.map User.user_id).Nodup)
    {u : User} (hu : u ∈ l) : l.filter (fun x => x.user_id = u.user_id) = [u] := by
  induction l with
  | nil => simp at hu
  | cons x xs ih =>
    simp only [List.map_cons, List.nodup_cons, List.mem_map, not_exists, not_and] at hnd
    rcases List.mem_cons.1 hu with rfl | hu
    · have : xs.filter (fun x => x.user_id = u.user_id) = [] := by
        rw [List.filter_eq_nil_iff]
        intro y hy
        simp only [decide_eq_true_eq]
        exact hnd.1 y hy
      simp [List.filter_cons, this]
    · have hne : ¬ x.user_id = u.user_id := fun e => hnd.1 u hu e.symm
      simp only [List.filter_cons, hne, decide_False]
      exact ih hnd.2 hu

/-! ## Validation of additional owners -/

theorem ReplaceAll_space_data (s : String) :
    (ReplaceAll s ' ' "").data = s.data.filter (fun c => c ≠ ' ') := by
  unfold ReplaceAll
  simp only
  induction s.data with
  | nil => rfl
  | cons c cs ih =>
    simp only [List.foldr_cons, ih, List.filter_cons]
    by_cases h : c = ' ' <;> simp [h]

theorem invalidOwner_iff (id : String) : invalidOwner id = true ↔ ∀ c ∈ id.data, c = ' ' := by
  unfold invalidOwner
  rw [beq_iff_eq, String.length, ReplaceAll_space_data, List.length_eq_zero,
    List.filter_eq_nil_iff]
  simp

theorem invalidOwner_eq_false_iff (id : String) :
    invalidOwner id = false ↔ ∃ c ∈ id.data, c ≠ ' ' := by
  rw [← Bool.not_eq_true, invalidOwner_iff]
  push_neg
  rfl

theorem ownerPerms_ne_addOwnerPerms : ownerPerms ≠ addOwnerPerms := by decide

/-! ## Runs without driver errors -/

theorem addOwner_invalid (env : Env) (t : UUID) (tx : Tx) {a : String}
    (h : invalidOwner a = true) :
    addOwner env t tx a = .error (.panicMsg "Invalid additional owner") := by
  simp [addOwner, h]

theorem addOwner_noErr {env : Env} (herr : ∀ k, env.txErr k = false) (t : UUID) (tx : Tx)
    {a : String} (h : invalidOwner a = false) : ∃ tx1, addOwner env t tx a = .ok tx1 := by
  unfold addOwner
  simp only [h, herr, Bool.false_eq_true, if_false]
  split <;> exact ⟨_, rfl⟩

theorem addOwners_noErr {env : Env} (herr : ∀ k, env.txErr k = false) (t : UUID)
    (as : List String) (tx : Tx) :
    ((∃ a ∈ as, invalidOwner a = true) ∧
      addOwners env t tx as = .error (.panicMsg "Invalid additional owner")) ∨
    ((∀ a ∈ as, invalidOwner a = false) ∧ ∃ tx1, addOwners env t tx as = .ok tx1) := by
  induction as generalizing tx with
  | nil => exact Or.inr ⟨by simp, tx, rfl⟩
  | cons a rest ih =>
    simp only [addOwners]
    cases hv : invalidOwner a with
    | true =>
      rw [addOwner_invalid env t tx hv]
      exact Or.inl ⟨⟨a, by simp, hv⟩, rfl⟩
    | false =>
      obtain ⟨tx1, h1⟩ := addOwner_noErr herr t tx hv
      rw [h1]
      rcases ih tx1 with ⟨⟨x, hx, hxv⟩, he⟩ | ⟨hall, tx2, h2⟩
      · exact Or.inl ⟨⟨x, by simp [hx], hxv⟩, he⟩
      · refine Or.inr ⟨?_, tx2, h2⟩
        intro x hx
        rcases List.mem_cons.1 hx with rfl | hx
        · exact hv
        · exact hall x hx

theorem migrateRow_noErr {env : Env} (herr : ∀ k, env.txErr k = false) (tx : Tx)
    {r : Bot} (ho : r.owner ≠ none) :
    ((∃ a ∈ r.additional_owners, invalidOwner a = true) ∧
      migrateRow env tx r = .error (.panicMsg "Invalid additional owner")) ∨
    ((∀ a ∈ r.additional_owners, invalidOwner a = false) ∧
      ∃ tx1, migrateRow env tx r = .ok tx1) := by
  unfold migrateRow
  cases hown : r.owner with
  | none => exact absurd hown ho
  | some o =>
    simp only [herr, Bool.false_eq_true, if_false]
    rcases addOwners_noErr herr (env.newTeamId tx.n)
      r.additional_owners
      { db := { bots := tx.db.bots,
                teams := tx.db.teams ++ [⟨env.newTeamId tx.n, r.queue_name, r.queue_avatar⟩],
                team_members := tx.db.team_members ++ [⟨env.newTeamId tx.n, o, ownerPerms⟩],
                users := tx.db.users },
        n := tx.n + 1 + 1 } with ⟨hex, he⟩ | ⟨hall, tx3, h3⟩
    · left
      refine ⟨hex, ?_⟩
      rw [he]
    · right
      refine ⟨hall, ?_⟩
      rw [h3]
      exact ⟨_, rfl⟩

theorem migrateRows_noErr {env : Env} (herr : ∀ k, env.txErr k = false) (rs : List Bot)
    (ho : ∀ r ∈ rs, r.owner ≠ none) (tx : Tx) :
    ((∃ r ∈ rs, ∃ a ∈ r.additional_owners, invalidOwner a = true) ∧
      migrateRows env tx rs = .error (.panicMsg "Invalid additional owner")) ∨
    ((∀ r ∈ rs, ∀ a ∈ r.additional_owners, invalidOwner a = false) ∧
      ∃ tx1, migrateRows env tx rs = .ok tx1) := by
  induction rs generalizing tx with
  | nil => exact Or.inr ⟨by simp, tx, rfl⟩
  | cons r rest ih =>
    simp only [migrateRows]
    rcases migrateRow_noErr herr tx (ho r (by simp)) with ⟨hex, he⟩ | ⟨hall, tx1, h1⟩
    · rw [he]
      exact Or.inl ⟨⟨r, by simp, hex⟩, rfl⟩
    · rw [h1]
      rcases ih (fun x hx => ho x (by simp [hx])) tx1 with ⟨⟨x, hx, hxv⟩, he⟩ | ⟨hall1, tx2, h2⟩
      · exact Or.inl ⟨⟨x, by simp [hx], hxv⟩, he⟩
      · refine Or.inr ⟨?_, tx2, h2⟩
        intro x hx
        rcases List.mem_cons.1 hx with rfl | hx
        · exact hall
        · exact hall1 x hx

/-- Without driver errors, with every candidate owner present and every
additional-owner id valid, the run commits. -/
theorem main_faultFree_ok {env : Env} {db : DB} (hff : env.faultFree)
    (ho : ∀ r ∈ candidates db, r.owner ≠ none)
    (hv : ∀ r ∈ candidates db, ∀ a ∈ r.additional_owners, invalidOwner a = false) :
    Succeeds env db := by
  obtain ⟨h1, h2, h3, h4, h5, h6, herr⟩ := hff
  refine ⟨h5, ?_⟩
  unfold main
  simp only [h1, h2, h3, h4, h6, Bool.false_eq_true, if_false, rowsRead_of_complete h5]
  rcases migrateRows_noErr herr (candidates db) ho ⟨db, 0⟩ with
    ⟨⟨r, hr, a, ha, hbad⟩, -⟩ | ⟨-, tx1, h⟩
  · rw [hv r hr a ha] at hbad
    cases hbad
  · rw [h]

/-- Every run that ends in a panic leaves the persisted tables as they were,
and a run that reads the whole candidate stream either does that or commits
the migration of every candidate. -/
theorem main_all_or_nothing (env : Env) (db : DB) (hstream : env.rowsErrAfter = none) :
    (main env db).persisted = db ∨
    ∃ tx, migrateRows env ⟨db, 0⟩ (candidates db) = .ok tx ∧ (main env db).persisted = tx.db := by
  rcases main_persisted env db with ⟨-, hp⟩ | ⟨-, tx, htx, hp⟩
  · exact Or.inl hp
  · rw [rowsRead_of_complete hstream] at htx
    exact Or.inr ⟨tx, htx, hp⟩

/-! ## Permission profiles -/

/-- C9: the Added-owner profile is the fixed list of seven pairwise distinct
tokens EDIT_BOT_SETTINGS, ADD_NEW_BOTS, RESUBMIT_BOTS, CERTIFY_BOTS,
RESET_BOT_TOKEN, EDIT_BOT_WEBHOOKS, TEST_BOT_WEBHOOKS; it holds none of
ADD_TEAM_MEMBERS, REMOVE_TEAM_MEMBERS, EDIT_TEAM_MEMBER_PERMISSIONS,
DELETE_BOTS, OWNER; and the Owner profile is the single token OWNER. -/
theorem C9_permission_profiles :
    addOwnerPerms = ["EDIT_BOT_SETTINGS", "ADD_NEW_BOTS", "RESUBMIT_BOTS", "CERTIFY_BOTS",
      "RESET_BOT_TOKEN", "EDIT_BOT_WEBHOOKS", "TEST_BOT_WEBHOOKS"] ∧
    addOwnerPerms.length = 7 ∧ addOwnerPerms.Nodup ∧
    "ADD_TEAM_MEMBERS" ∉ addOwnerPerms ∧ "REMOVE_TEAM_MEMBERS" ∉ addOwnerPerms ∧
    "EDIT_TEAM_MEMBER_PERMISSIONS" ∉ addOwnerPerms ∧ "DELETE_BOTS" ∉ addOwnerPerms ∧
    "OWNER" ∉ addOwnerPerms ∧
    TeamPermissionAddTeamMembers ∉ addOwnerPerms ∧
    TeamPermissionRemoveTeamMembers ∉ addOwnerPerms ∧
    TeamPermissionEditTeamMemberPermissions ∉ addOwnerPerms ∧
    TeamPermissionDeleteBots ∉ addOwnerPerms ∧ TeamPermissionOwner ∉ addOwnerPerms ∧
    ownerPerms = ["OWNER"] := by
  decide

/-! ## Append-only tables -/

/-- C8: whatever happens during the run, the rows of `teams`, `team_members`
and `users` that were there before are all still there, unchanged and in
place, after it: each of the three tables only has rows appended. -/
theorem C8_append_only (env : Env) (db : DB) :
    db.teams <+: (main env db).persisted.teams ∧
    db.team_members <+: (main env db).persisted.team_members ∧
    db.users <+: (main env db).persisted.users := by
  rcases main_persisted env db with ⟨-, hp⟩ | ⟨-, tx, htx, hp⟩
  · rw [hp]
    exact ⟨List.prefix_refl _, List.prefix_refl _, List.prefix_refl _⟩
  · obtain ⟨ks, -, -, -, -, ht, hm, -, ⟨added, hu, -, -⟩, -⟩ := migrateRows_ok htx
    rw [hp, ht, hm, hu]
    exact ⟨List.prefix_append _ _, List.prefix_append _ _, List.prefix_append _ _⟩

/-! ## Migrated bots -/

/-- What every committed run does for a bot whose row it read, with `bot_id`
a key of `bots`: the new team rows are as many as the rows read, and the bot
now has no owner, no additional owners, and as team reference the id of a team
created in this run that carries its former queue name and avatar. -/
theorem committed_run_migrates_read_bot (env : Env) (db : DB)
    (hkey : (db.bots.map Bot.bot_id).Nodup) (hok : (main env db).result = .ok ())
    (b : Bot) (hb : b ∈ rowsRead env db) :
    ∃ (newTeams : List Team) (t : UUID),
      (main env db).persisted.teams = db.teams ++ newTeams ∧
      newTeams.length = (rowsRead env db).length ∧
      (⟨t, b.queue_name, b.queue_avatar⟩ : Team) ∈ newTeams ∧
      (∃ c ∈ (main env db).persisted.bots, c.bot_id = b.bot_id) ∧
      ∀ c ∈ (main env db).persisted.bots, c.bot_id = b.bot_id →
        c.team_owner = some t ∧ c.owner = none ∧ c.additional_owners = [] ∧
        c = setTeam t b := by
  obtain ⟨tx, htx, hp⟩ := main_ok hok
  obtain ⟨ks, hlen, -, -, -, ht, -, hbots, -, -⟩ := migrateRows_ok htx
  have hlen1 : (ks.map env.newTeamId).length = (rowsRead env db).length := by simpa using hlen
  have hsub : ∀ r ∈ rowsRead env db, r ∈ db.bots := fun r hr => (mem_rowsRead hr).1
  have hbb : b ∈ db.bots := hsub b hb
  obtain ⟨t, hz, he⟩ := assignRow_of_read hkey hsub hlen1 hb
  simp only at ht hbots
  rw [assign_eq_map] at hbots
  refine ⟨teamRows (rowsRead env db) (ks.map env.newTeamId), t, by rw [hp, ht],
    teamRows_length hlen1, mem_teamRows_of_mem_zip hz, ?_, ?_⟩
  · exact ⟨setTeam t b, by rw [hp, hbots]; exact List.mem_map.2 ⟨b, hbb, he⟩, rfl⟩
  · intro c hc hid
    rw [hp, hbots] at hc
    obtain ⟨b0, hb0, rfl⟩ := List.mem_map.1 hc
    rw [assignRow_bot_id] at hid
    have : b0 = b := eq_of_bot_id_eq hkey hb0 hbb hid
    subst this
    rw [he]
    exact ⟨rfl, rfl, rfl, rfl⟩

/-- C1 at a failing run: two candidate bots with distinct ids, the candidate
stream breaks after the first row, no other error.  The run commits, yet one
team row was created for two candidate bots, and the second candidate bot
still has its owner, no team reference and its additional owner. -/
theorem C1_broken_stream_leaves_candidate_unmigrated :
    (twoBotsDB.bots.map Bot.bot_id).Nodup ∧
    (main brokenStreamEnv twoBotsDB).result = .ok () ∧
    (candidates twoBotsDB).length = 2 ∧
    (main brokenStreamEnv twoBotsDB).persisted.teams.length = twoBotsDB.teams.length + 1 ∧
    secondBot ∈ twoBotsDB.bots ∧ secondBot.additional_owners ≠ [] ∧
    (∀ c ∈ (main brokenStreamEnv twoBotsDB).persisted.bots, c.bot_id = secondBot.bot_id →
      c.owner = some "U3" ∧ c.team_owner = none ∧ c.additional_owners = ["U4"]) ∧
    (∀ t ∈ (main brokenStreamEnv twoBotsDB).persisted.teams,
      t.name ≠ secondBot.queue_name) := by
  decide

/-! ## Team members and users of a migrated bot -/

/-- What every committed run inserts into `team_members` for a bot whose row
it read, with `bot_id` a key of `bots` and the store handing out pairwise
distinct team ids: for owner `o` and additional owners `a1 … an`, the rows
inserted for the bot's new team `t` are exactly `(t, o, ownerPerms)` followed
by `(t, ai, addOwnerPerms)` in list order, `n + 1` rows and no others. -/
theorem committed_run_member_rows (env : Env) (db : DB)
    (hkey : (db.bots.map Bot.bot_id).Nodup) (hids : Function.Injective env.newTeamId)
    (hok : (main env db).result = .ok ()) (b : Bot) (hb : b ∈ rowsRead env db)
    (o : String) (ho : b.owner = some o) :
    ∃ (t : UUID) (newMembers : List TeamMember),
      setTeam t b ∈ (main env db).persisted.bots ∧
      (⟨t, b.queue_name, b.queue_avatar⟩ : Team) ∈ (main env db).persisted.teams ∧
      (main env db).persisted.team_members = db.team_members ++ newMembers ∧
      newMembers.filter (fun m => m.team_id = t)
        = ⟨t, o, ownerPerms⟩ :: b.additional_owners.map (fun a => ⟨t, a, addOwnerPerms⟩) ∧
      (newMembers.filter (fun m => m.team_id = t)).length = b.additional_owners.length + 1 := by
  obtain ⟨tx, htx, hp⟩ := main_ok hok
  obtain ⟨ks, hlen, -, hpw, -, ht, hm, hbots, -, -⟩ := migrateRows_ok htx
  have hlen1 : (ks.map env.newTeamId).length = (rowsRead env db).length := by simpa using hlen
  have hsub : ∀ r ∈ rowsRead env db, r ∈ db.bots := fun r hr => (mem_rowsRead hr).1
  obtain ⟨t, hz, he⟩ := assignRow_of_read hkey hsub hlen1 hb
  simp only at ht hm hbots
  rw [assign_eq_map] at hbots
  have hf := allMemberRows_filter (newTeamIds_nodup hids hpw) hz
  have hrows : memberRows t b
      = ⟨t, o, ownerPerms⟩ :: b.additional_owners.map (fun a => ⟨t, a, addOwnerPerms⟩) := by
    simp [memberRows, ho]
  refine ⟨t, allMemberRows (rowsRead env db) (ks.map env.newTeamId), ?_, ?_, by rw [hp, hm],
    by rw [hf, hrows], by rw [hf, hrows]; simp⟩
  · rw [hp, hbots]
    exact List.mem_map.2 ⟨b, hsub b hb, he⟩
  · rw [hp, ht]
    exact List.mem_append_right _ (mem_teamRows_of_mem_zip hz)

/-- C5 at a failing run: two candidate bots, the candidate stream breaks
after the first row, no other error, team ids pairwise distinct.  The run
commits, and the second candidate bot, with owner `U3` and additional owner
`U4`, gets none of its two team-member rows: the only rows inserted are the
two of the first bot, and no team exists under the second bot's queue name. -/
theorem C5_broken_stream_no_member_rows :
    (main brokenStreamEnv twoBotsDB).result = .ok () ∧
    secondBot ∈ candidates twoBotsDB ∧ secondBot.owner = some "U3" ∧
    secondBot.additional_owners = ["U4"] ∧
    (main brokenStreamEnv twoBotsDB).persisted.team_members
      = [⟨1000, "U1", ownerPerms⟩, ⟨1000, "U2", addOwnerPerms⟩] ∧
    (∀ m ∈ (main brokenStreamEnv twoBotsDB).persisted.team_members,
      m.user_id ≠ "U3" ∧ m.user_id ≠ "U4") ∧
    (∀ t : UUID, (⟨t, secondBot.queue_name, secondBot.queue_avatar⟩ : Team)
      ∈ (main brokenStreamEnv twoBotsDB).persisted.teams → False) := by
  refine ⟨by decide, by decide, by decide, by decide, by decide, by decide, ?_⟩
  intro t ht
  have h : ∀ x ∈ (main brokenStreamEnv twoBotsDB).persisted.teams,
      x.name ≠ secondBot.queue_name := by decide
  exact h _ ht rfl

/-- C6: when `crypto.RandString n` returns strings of length `n`, after a run
that commits every additional owner of a bot it migrated has a user row; the
rows that were in `users` before are all unchanged; an id without a row
before the run has exactly one row now, with a token of length 128, no extra
links and the three flags false; an id with a row before the run has exactly
the rows it had. -/
theorem C6_user_provisioning (env : Env) (db : DB)
    (hrand : ∀ n k, (env.RandString n k).length = n) (hok : (main env db).result = .ok ())
    (b : Bot) (hb : b ∈ rowsRead env db) (a : String) (ha : a ∈ b.additional_owners) :
    db.users <+: (main env db).persisted.users ∧
    (∃ u ∈ (main env db).persisted.users, u.user_id = a) ∧
    ((∀ u ∈ db.users, u.user_id ≠ a) →
      ∃ u, (main env db).persisted.users.filter (fun x => x.user_id = a) = [u] ∧
        u.api_token.length = 128 ∧ u.extra_links = [] ∧
        u.staff = false ∧ u.developer = false ∧ u.certified = false) ∧
    ((∃ u ∈ db.users, u.user_id = a) →
      (main env db).persisted.users.filter (fun x => x.user_id = a)
        = db.users.filter (fun x => x.user_id = a)) := by
  obtain ⟨tx, htx, hp⟩ := main_ok hok
  obtain ⟨ks, -, -, -, -, -, -, -, hprov, hall⟩ := migrateRows_ok htx
  have hcount : countUsers tx.db.users a ≠ 0 := ((hall b hb).2 a ha).2
  obtain ⟨added, hu, hnd, hadded⟩ := hprov
  simp only at hu
  have hex : ∃ u ∈ tx.db.users, u.user_id = a := by
    by_contra hcon
    push_neg at hcon
    exact hcount (countUsers_eq_zero.2 hcon)
  rw [hp]
  refine ⟨by rw [hu]; exact List.prefix_append _ _, hex, ?_, ?_⟩
  · intro hnone
    obtain ⟨u, hu1, hua⟩ := hex
    rw [hu] at hu1
    rcases List.mem_append.1 hu1 with h0 | h1
    · exact absurd hua (hnone u h0)
    · have hf0 : db.users.filter (fun x => x.user_id = a) = [] := by
        rw [List.filter_eq_nil_iff]
        intro y hy
        simpa using hnone y hy
      obtain ⟨-, k, hk⟩ := hadded u h1
      refine ⟨u, ?_, ?_, ?_, ?_, ?_, ?_⟩
      · rw [hu, List.filter_append, hf0, List.nil_append, ← hua]
        exact filter_user_id_of_nodup hnd h1
      · rw [hk]
        exact hrand 128 k
      all_goals rw [hk]; rfl
  · rintro ⟨u0, hu0, hu0a⟩
    have hf1 : added.filter (fun x => x.user_id = a) = [] := by
      rw [List.filter_eq_nil_iff]
      intro y hy
      simp only [decide_eq_true_eq]
      intro hya
      have := countUsers_eq_zero.1 (hadded y hy).1 u0 hu0
      exact this (hu0a.trans hya.symm)
    rw [hu, List.filter_append, hf1, List.append_nil]

theorem C6_user_provisioning_witness :
    (∀ n k, (demoEnv.RandString n k).length = n) ∧ (main demoEnv demoDB).result = .ok () ∧
    demoBot ∈ rowsRead demoEnv demoDB ∧ "U3" ∈ demoBot.additional_owners ∧
    (demoDB.users <+: (main demoEnv demoDB).persisted.users ∧
    (∃ u ∈ (main demoEnv demoDB).persisted.users, u.user_id = "U3") ∧
    ((∀ u ∈ demoDB.users, u.user_id ≠ "U3") →
      ∃ u, (main demoEnv demoDB).persisted.users.filter (fun x => x.user_id = "U3") = [u] ∧
        u.api_token.length = 128 ∧ u.extra_links = [] ∧
        u.staff = false ∧ u.developer = false ∧ u.certified = false) ∧
    ((∃ u ∈ demoDB.users, u.user_id = "U3") →
      (main demoEnv demoDB).persisted.users.filter (fun x => x.user_id = "U3")
        = demoDB.users.filter (fun x => x.user_id = "U3"))) :=
  ⟨fun n k => by simp [demoEnv, String.length], by decide, by decide, by decide,
    C6_user_provisioning demoEnv demoDB (fun n k => by simp [demoEnv, String.length])
      (by decide) demoBot (by decide) "U3" (by decide)⟩

/-! ## Bots without additional owners -/

/-- C7: with `bot_id` a key of `bots`, a bot whose additional-owners list is
empty is not a candidate row and is never read; whatever the run does, the
`bots` table afterwards is the old one with rows rewritten in place, the row
of this bot is rewritten to itself, every row that did change had additional
owners, and the teams created are those of rows read, none of them this bot. -/
theorem C7_bot_without_additional_owners (env : Env) (db : DB)
    (hkey : (db.bots.map Bot.bot_id).Nodup) (b : Bot) (hb : b ∈ db.bots)
    (hempty : b.additional_owners = []) :
    b ∉ candidates db ∧ b ∉ rowsRead env db ∧ b ∈ (main env db).persisted.bots ∧
    (∃ g : Bot → Bot, (main env db).persisted.bots = db.bots.map g ∧ g b = b ∧
      ∀ c ∈ db.bots, g c ≠ c → c.additional_owners ≠ []) ∧
    (∃ (rs : List Bot) (ts : List UUID), ts.length = rs.length ∧
      (main env db).persisted.teams = db.teams ++ teamRows rs ts ∧ b ∉ rs ∧
      ∀ r ∈ rs, r ∈ candidates db) := by
  have hnc : b ∉ candidates db := fun h => (mem_candidates.1 h).2 hempty
  have hnr : b ∉ rowsRead env db := fun h => (mem_rowsRead h).2 hempty
  rcases main_persisted env db with ⟨-, hp⟩ | ⟨-, tx, htx, hp⟩
  · rw [hp]
    exact ⟨hnc, hnr, hb, ⟨id, by simp, rfl, fun c _ h => absurd rfl h⟩,
      ⟨[], [], rfl, by simp [teamRows], by simp, by simp⟩⟩
  · obtain ⟨ks, hlen, -, -, -, ht, -, hbots, -, -⟩ := migrateRows_ok htx
    simp only at ht hbots
    rw [assign_eq_map] at hbots
    have hsub : ∀ r ∈ rowsRead env db, r ∈ db.bots := fun r hr => (mem_rowsRead hr).1
    have hfix : ∀ c ∈ db.bots, c.additional_owners = [] →
        assignRow (rowsRead env db) (ks.map env.newTeamId) c = c := by
      intro c hc hce
      exact assignRow_of_not_read hkey hsub hc (fun h => (mem_rowsRead h).2 hce)
    rw [hp]
    refine ⟨hnc, hnr, ?_, ⟨assignRow (rowsRead env db) (ks.map env.newTeamId), hbots,
      hfix b hb hempty, ?_⟩, ⟨rowsRead env db, ks.map env.newTeamId, by simpa using hlen, ht,
      hnr, fun r hr => (rowsRead_sublist env db).subset hr⟩⟩
    · rw [hbots]
      exact List.mem_map.2 ⟨b, hb, hfix b hb hempty⟩
    · intro c hc hne hce
      exact hne (hfix c hc hce)

theorem C7_bot_without_additional_owners_witness :
    (demoDB.bots.map Bot.bot_id).Nodup ∧ soloBot ∈ demoDB.bots ∧
    soloBot.additional_owners = [] ∧
    (soloBot ∉ candidates demoDB ∧ soloBot ∉ rowsRead demoEnv demoDB ∧
    soloBot ∈ (main demoEnv demoDB).persisted.bots ∧
    (∃ g : Bot → Bot, (main demoEnv demoDB).persisted.bots = demoDB.bots.map g ∧
      g soloBot = soloBot ∧ ∀ c ∈ demoDB.bots, g c ≠ c → c.additional_owners ≠ []) ∧
    (∃ (rs : List Bot) (ts : List UUID), ts.length = rs.length ∧
      (main demoEnv demoDB).persisted.teams = demoDB.teams ++ teamRows rs ts ∧
      soloBot ∉ rs ∧ ∀ r ∈ rs, r ∈ candidates demoDB)) :=
  ⟨by decide, by decide, by decide,
    C7_bot_without_additional_owners demoEnv demoDB (by decide) soloBot (by decide)
      (by decide)⟩

/-! ## Running again -/

theorem main_no_rows {env : Env} {db : DB} (hrows : rowsRead env db = [])
    (h1 : env.poolNewErr = false) (h2 : env.countErr = false) (h3 : env.beginErr = false)
    (h4 : env.queryErr = false) (h5 : env.commitErr = false) :
    (main env db).result = .ok () := by
  unfold main
  simp [h1, h2, h3, h4, h5, hrows, migrateRows]

/-- After a run that read the candidate stream to its end and committed, no
bot has additional owners left, so a second run, in any environment, reads
no candidate row, issues no statement on its transaction and leaves the
persisted tables exactly as the first run left them; it commits whenever its
five driver calls succeed. -/
theorem second_run_after_complete_run (env : Env) (db : DB) (hrun : Succeeds env db) :
    candidates (main env db).persisted = [] ∧
    ∀ env2 : Env,
      rowsRead env2 (main env db).persisted = [] ∧
      migrateRows env2 ⟨(main env db).persisted, 0⟩ (rowsRead env2 (main env db).persisted)
        = .ok ⟨(main env db).persisted, 0⟩ ∧
      (main env2 (main env db).persisted).persisted = (main env db).persisted ∧
      (env2.poolNewErr = false → env2.countErr = false → env2.beginErr = false →
        env2.queryErr = false → env2.commitErr = false →
        (main env2 (main env db).persisted).result = .ok ()) := by
  obtain ⟨hs, hok⟩ := hrun
  obtain ⟨tx, htx, hp⟩ := main_ok hok
  rw [rowsRead_of_complete hs] at htx
  obtain ⟨ks, hlen, -, -, -, -, -, hbots, -, -⟩ := migrateRows_ok htx
  have hlen1 : (ks.map env.newTeamId).length = (candidates db).length := by simpa using hlen
  simp only at hbots
  rw [assign_eq_map] at hbots
  have hcand : candidates (main env db).persisted = [] := by
    unfold candidates
    rw [List.filter_eq_nil_iff, hp, hbots]
    intro c hc
    obtain ⟨b0, hb0, rfl⟩ := List.mem_map.1 hc
    by_cases hmem : b0.bot_id ∈ (candidates db).map Bot.bot_id
    · obtain ⟨r, t, -, -, he⟩ := assignRow_of_mem hlen1 hmem
      rw [he]
      simp [setTeam]
    · rw [assignRow_of_not_mem hmem]
      have : b0 ∉ candidates db := fun h => hmem (List.mem_map_of_mem Bot.bot_id h)
      have h0 : b0.additional_owners = [] := by
        by_contra hne
        exact this (mem_candidates.2 ⟨hb0, hne⟩)
      simp [h0]
  refine ⟨hcand, fun env2 => ?_⟩
  have hrows : rowsRead env2 (main env db).persisted = [] := by
    have := rowsRead_sublist env2 (main env db).persisted
    rw [hcand] at this
    exact List.eq_nil_of_sublist_nil this
  refine ⟨hrows, by rw [hrows]; rfl, ?_, ?_⟩
  · rcases main_persisted env2 (main env db).persisted with ⟨-, h⟩ | ⟨-, tx2, h2, h⟩
    · exact h
    · rw [hrows] at h2
      simp only [migrateRows, Except.ok.injEq] at h2
      rw [h, ← h2]
  · intro h1 h2 h3 h4 h5
    exact main_no_rows hrows h1 h2 h3 h4 h5

/-- C10 at a failing run: two candidate bots, the candidate stream of the
first run breaks after the first row, no other error.  The first run commits,
the second bot is still a candidate in the state it leaves, and a second run
without any error reads that bot, creates a team for it and commits a state
different from the one the first run left. -/
theorem C10_second_run_after_broken_stream_changes_state :
    (main brokenStreamEnv twoBotsDB).result = .ok () ∧
    candidates (main brokenStreamEnv twoBotsDB).persisted
      = [⟨"B2", "Second", "b.png", some "U3", none, ["U4"]⟩] ∧
    rowsRead demoEnv (main brokenStreamEnv twoBotsDB).persisted ≠ [] ∧
    (main demoEnv (main brokenStreamEnv twoBotsDB).persisted).result = .ok () ∧
    (main demoEnv (main brokenStreamEnv twoBotsDB).persisted).persisted
      ≠ (main brokenStreamEnv twoBotsDB).persisted ∧
    (main demoEnv (main brokenStreamEnv twoBotsDB).persisted).persisted.teams.length
      = (main brokenStreamEnv twoBotsDB).persisted.teams.length + 1 := by
  decide

/-! ## Invalid additional owners -/

/-- C3: when the candidate rows are all read, an additional-owner id of a
candidate bot that is empty or made of space characters only makes the run
end in a panic with nothing persisted, whatever was written for that bot or
for earlier ones; and when no driver call fails and every candidate row has
an owner, the panic is the one with the message "Invalid additional owner". -/
theorem C3_blank_additional_owner (env : Env) (db : DB) (hstream : env.rowsErrAfter = none)
    (b : Bot) (hb : b ∈ candidates db) (a : String) (ha : a ∈ b.additional_owners)
    (hblank : ∀ c ∈ a.data, c = ' ') :
    (main env db).persisted = db ∧ (∃ e, (main env db).result = .error e) ∧
    (env.faultFree → (∀ r ∈ candidates db, r.owner ≠ none) →
      (main env db).result = .error (.panicMsg "Invalid additional owner")) := by
  have hinv : invalidOwner a = true := (invalidOwner_iff a).2 hblank
  have hnot : (main env db).result ≠ .ok () := by
    intro hok
    obtain ⟨tx, htx, -⟩ := main_ok hok
    rw [rowsRead_of_complete hstream] at htx
    obtain ⟨ks, -, -, -, -, -, -, -, -, hall⟩ := migrateRows_ok htx
    have := ((hall b hb).2 a ha).1
    rw [hinv] at this
    cases this
  refine ⟨main_error hnot, ?_, ?_⟩
  · cases hres : (main env db).result with
    | error e => exact ⟨e, rfl⟩
    | ok u => exact absurd hres hnot
  · rintro ⟨h1, h2, h3, h4, h5, h6, herr⟩ ho
    unfold main
    simp only [h1, h2, h3, h4, Bool.false_eq_true, if_false, rowsRead_of_complete h5]
    rcases migrateRows_noErr herr (candidates db) ho ⟨db, 0⟩ with ⟨-, he⟩ | ⟨hall, -⟩
    · rw [he]
    · rw [hall b hb a ha] at hinv
      cases hinv

theorem C3_blank_additional_owner_witness :
    demoEnv.rowsErrAfter = none ∧
    (⟨"B1", "MyBot", "a.png", some "U1", none, ["U2", "  "]⟩ : Bot) ∈ candidates blankDB ∧
    "  " ∈ ["U2", "  "] ∧ (∀ c ∈ "  ".data, c = ' ') ∧
    ((main demoEnv blankDB).persisted = blankDB ∧
    (∃ e, (main demoEnv blankDB).result = .error e) ∧
    (demoEnv.faultFree → (∀ r ∈ candidates blankDB, r.owner ≠ none) →
      (main demoEnv blankDB).result = .error (.panicMsg "Invalid additional owner"))) ∧
    (main demoEnv blankDB).result = .error (.panicMsg "Invalid additional owner") :=
  ⟨rfl, by decide, by decide, by decide,
    C3_blank_additional_owner demoEnv blankDB rfl
      ⟨"B1", "MyBot", "a.png", some "U1", none, ["U2", "  "]⟩ (by decide) "  " (by decide)
      (by decide), by decide⟩

/-- C4, as the code has it: only the space character counts.  In a run that
commits, every additional-owner id of every row read holds a character other
than a space, and so does the user id of every team-member row inserted with
the Added-owner profile; an id made of spaces only makes the run panic. -/
theorem C4_space_only_owner_rejected (env : Env) (db : DB)
    (hok : (main env db).result = .ok ()) :
    (∀ r ∈ rowsRead env db, ∀ a ∈ r.additional_owners, ∃ c ∈ a.data, c ≠ ' ') ∧
    (∀ m ∈ (main env db).persisted.team_members.drop db.team_members.length,
      m.perms = addOwnerPerms → ∃ c ∈ m.user_id.data, c ≠ ' ') := by
  obtain ⟨tx, htx, hp⟩ := main_ok hok
  obtain ⟨ks, -, -, -, -, -, hm, -, -, hall⟩ := migrateRows_ok htx
  simp only at hm
  refine ⟨fun r hr a ha => (invalidOwner_eq_false_iff a).1 ((hall r hr).2 a ha).1, ?_⟩
  intro m hmem hperms
  rw [hp, hm, List.drop_left] at hmem
  rcases allMemberRows_perms hmem with h | ⟨r, hr, ha⟩
  · exact absurd (h.symm.trans hperms) ownerPerms_ne_addOwnerPerms
  · exact (invalidOwner_eq_false_iff _).1 ((hall r hr).2 _ ha).1

theorem C4_space_only_owner_rejected_witness :
    (main demoEnv tabDB).result = .ok () ∧
    ((∀ r ∈ rowsRead demoEnv tabDB, ∀ a ∈ r.additional_owners, ∃ c ∈ a.data, c ≠ ' ') ∧
    (∀ m ∈ (main demoEnv tabDB).persisted.team_members.drop tabDB.team_members.length,
      m.perms = addOwnerPerms → ∃ c ∈ m.user_id.data, c ≠ ' ')) :=
  ⟨by decide, C4_space_only_owner_rejected demoEnv tabDB (by decide)⟩

/-- C4 as stated fails: an additional-owner id that is a single tab is blank
after whitespace removal, yet the run commits and gives it a team-member row
with the Added-owner profile. -/
theorem C4_tab_owner_accepted :
    blankAfterWhitespaceRemoval "\t" = true ∧ Succeeds demoEnv tabDB ∧
    (⟨1000, "\t", addOwnerPerms⟩ : TeamMember) ∈ (main demoEnv tabDB).persisted.team_members := by
  decide

/-! ## Failure atomicity -/

/-- C2 at a failing run: two candidate bots, the candidate stream breaks
after the first row, no other error.  The loop ends, the transaction commits,
and the persisted tables are neither the initial ones nor the fully migrated
ones: the first bot is migrated, the second still has its additional owner. -/
theorem C2_broken_stream_commits_partial_migration :
    rowsRead brokenStreamEnv twoBotsDB ≠ candidates twoBotsDB ∧
    (main brokenStreamEnv twoBotsDB).result = .ok () ∧
    (main brokenStreamEnv twoBotsDB).persisted ≠ twoBotsDB ∧
    (main brokenStreamEnv twoBotsDB).persisted ≠ (main demoEnv twoBotsDB).persisted ∧
    (main brokenStreamEnv twoBotsDB).persisted.teams = [⟨1000, "First", "a.png"⟩] ∧
    candidates (main brokenStreamEnv twoBotsDB).persisted
      = [⟨"B2", "Second", "b.png", some "U3", none, ["U4"]⟩] := by
  decide

end TeamsMigrator
